import Mathlib

/-
Verification of the bluepass message bus (src/bluepass/messagebus.py).

The development shallowly embeds the parts of the module the specification
talks about:
  * the frame scanner `find_message_end` (lines 33-63);
  * the per-connection call table, close logic and reply/timeout delivery
    (`MessageBusConnectionBase.__init__`, `call_method`, `dispatch`, `close`,
    lines 80-354), as an explicit transition system;
  * the read-throttle flow control of `_do_read` / `pop_incoming`
    (lines 153-190 and 256-272), as a transition system;
  * the envelope validation / classification pipeline of `pop_incoming`,
    `check_message`, `MessageBusConnectionBase.dispatch` and
    `MessageBusHandler.dispatch` (lines 214-225, 256-272, 304-319, 550-559);
  * the handler registry dispatch `_check_callable` /
    `_dispatch_method_call` (lines 484-530);
  * the server fan-out `MessageBusServer.call_method` (lines 647-663).
-/

namespace BluepassMB

/-- Python `str.isspace` restricted to the ASCII range.  The read pump
decodes the socket buffer with `buf.decode('ascii')` (line 187), so every
character reaching `find_message_end` is ASCII; on that range Python's
`isspace` accepts exactly these ten characters. -/
def pyIsSpace (c : Char) : Bool :=
  c = ' ' || c = '\t' || c = '\n' || c = '\x0b' || c = '\x0c' || c = '\r' ||
  c = '\x1c' || c = '\x1d' || c = '\x1e' || c = '\x1f'

/-- The four scanner states of `find_message_end` (line 33:
`s_preamble, s_object, s_string, s_string_escape = range(4)`), with the
`depth` counter fused into the state.  `depth` is only meaningful in the
non-preamble states; it is carried so that the `state == s_object and
depth == 0` return test of line 61 is a test on this one value. -/
inductive ScanState where
  | preamble
  | object (depth : Nat)
  | string (depth : Nat)
  | stringEscape (depth : Nat)
deriving DecidableEq

/-- One character transition of `find_message_end` (lines 40-60).
`none` models the `raise ValueError` of line 46.  In the `object` state a
`'}'` decrements the depth; the caller returns as soon as the depth hits 0,
so the truncated `Nat` subtraction never loses information. -/
def scanStep : ScanState → Char → Option ScanState
  | .preamble, ch =>
      if ch = '{' then some (.object 1)
      else if pyIsSpace ch then some .preamble
      else none
  | .object depth, ch =>
      if ch = '{' then some (.object (depth + 1))
      else if ch = '}' then some (.object (depth - 1))
      else if ch = '"' then some (.string depth)
      else some (.object depth)
  | .string depth, ch =>
      if ch = '"' then some (.object depth)
      else if ch = '\\' then some (.stringEscape depth)
      else some (.string depth)
  | .stringEscape depth, _ => some (.string depth)

/-- Result of a scan: `err` models the `raise ValueError`, `notFound` the
fall-through `return -1`, `found i` the `return i` of line 62. -/
inductive ScanResult where
  | err
  | notFound
  | found (i : Nat)
deriving DecidableEq

/-- Shift a found index by `n` positions (used to relate a scan of a suffix
to the scan of the whole buffer). -/
def ScanResult.shift (n : Nat) : ScanResult → ScanResult
  | .found i => .found (i + n)
  | r => r

/-- The loop of `find_message_end` (lines 39-62): step the state machine
over the characters; after every character, if the state is `object` with
depth 0 return the current index. -/
def scanFrom : ScanState → List Char → ScanResult
  | _, [] => .notFound
  | st, c :: rest =>
      match scanStep st c with
      | none => .err
      | some st' =>
          if st' = ScanState.object 0 then .found 0
          else
            match scanFrom st' rest with
            | .found j => .found (j + 1)
            | .err => .err
            | .notFound => .notFound

/-- `find_message_end(buf)` (lines 35-63).  `Except.error ()` is the
`ValueError`; `-1` is the "no complete message yet" sentinel; otherwise the
result is the index of the closing brace of the first complete top-level
JSON object. -/
def find_message_end (buf : String) : Except Unit Int :=
  match scanFrom .preamble buf.data with
  | .err => .error ()
  | .notFound => .ok (-1)
  | .found i => .ok (Int.ofNat i)

/-- Scan a character list recording only the final state; the answer is
`none` if the scanner would error or would return (reach `object 0`)
strictly inside the list.  Used to compose scans of buffer fragments. -/
def scanNR : ScanState → List Char → Option ScanState
  | st, [] => some st
  | st, c :: rest =>
      match scanStep st c with
      | none => none
      | some st' =>
          if st' = ScanState.object 0 then none
          else scanNR st' rest

/-- Decides whether every character before the first `'{'` of the buffer is
whitespace (vacuously, when there is no `'{'`, every character must be
whitespace).  This is exactly the condition under which the preamble loop
of `find_message_end` does not raise. -/
def wsBeforeBrace : List Char → Bool
  | [] => true
  | c :: rest =>
      if c = '{' then true
      else if pyIsSpace c then wsBeforeBrace rest
      else false

/-- Inner character group of a quoted string: either a backslash escape
pair, or a single character that is neither `'"'` nor `'\'`. -/
inductive IsInnerUnit : List Char → Prop where
  | esc (c : Char) : IsInnerUnit ['\\', c]
  | plain (c : Char) (h1 : c ≠ '"') (h2 : c ≠ '\\') : IsInnerUnit [c]

/-- Body of a quoted string literal: a concatenation of inner units. -/
inductive IsInner : List Char → Prop where
  | nil : IsInner []
  | cons {u s : List Char} : IsInnerUnit u → IsInner s → IsInner (u ++ s)

/-- The brace/quote structure of a complete top-level JSON object, the
notion of "complete object" the frame scanner is specified against.
`Gram 0 s` : `s` is a complete object `'{' body '}'`;
`Gram 1 s` : `s` is an object body, a concatenation of items;
`Gram 2 s` : `s` is one item: a single character that is none of
`'{' '}' '"'`, a quoted string literal (escapes respected), or a nested
complete object.  Every syntactically valid JSON object text satisfies
`Gram 0`; the grammar does not validate the JSON any further, mirroring
the scanner, which only matches braces while respecting strings. -/
inductive Gram : Nat → List Char → Prop where
  | obj {body : List Char} : Gram 1 body → Gram 0 ('{' :: body ++ ['}'])
  | bodyNil : Gram 1 []
  | bodyCons {it s : List Char} : Gram 2 it → Gram 1 s → Gram 1 (it ++ s)
  | itemPlain (c : Char) (h1 : c ≠ '{') (h2 : c ≠ '}') (h3 : c ≠ '"') :
      Gram 2 [c]
  | itemStr {inner : List Char} : IsInner inner →
      Gram 2 ('"' :: inner ++ ['"'])
  | itemObj {s : List Char} : Gram 0 s → Gram 2 s

/-- A JSON value, as produced by the module's JSON decoder. -/
inductive JVal where
  | null
  | bool (b : Bool)
  | num (n : Int)
  | str (s : String)
  | arr (elems : List JVal)
  | obj (fields : List (String × JVal))

/-- A decoded JSON object message: an association list of fields, with the
keys unique (Python dict).  Lookup takes the first match. -/
abbrev Msg := List (String × JVal)

/-- Field lookup in an association list (Python `dict[key]` / `dict.get`). -/
def alookup {α : Type} : List (String × α) → String → Option α
  | [], _ => none
  | (k, v) :: rest, key => if k = key then some v else alookup rest key

/-- Lookup of a field of a JSON value that is expected to be an object
(`reply['error']['code']`-style access). -/
def jget (v : JVal) (key : String) : Option JVal :=
  match v with
  | .obj fields => alookup fields key
  | _ => none

/-- Modelled from the spec: `StructuredError` is defined in
`bluepass/error.py`, which is not among the sources; only its use sites
are.  Per the spec's error-object shape and the use at lines 342-346, it
carries a domain-level name, a human-readable message and a detail payload
(defaulting to null), and `asdict` exposes them as
`error_name`/`error_message`/`error_detail`, which `send_error` and
`method_return_callback` map onto the wire fields `code`/`message`/`data`. -/
structure StructuredError where
  name : String
  message : String
  detail : JVal := .null

/-- The wire error object built by `send_error` (lines 292-294) and by the
timeout path of `method_return_callback` (lines 344-346):
`{code, message, data}` from the structured error's fields. -/
def errorObj (e : StructuredError) : JVal :=
  .obj [("code", .str e.name), ("message", .str e.message), ("data", e.detail)]

/-- The error reply built by `send_error` (lines 283-295). -/
def errorReply (idv : JVal) (e : StructuredError) : Msg :=
  [("jsonrpc", .str "2.0"), ("id", idv), ("error", errorObj e)]

/-- The method-return reply built by `send_method_return` (lines 274-281). -/
def resultReply (idv : JVal) (v : JVal) : Msg :=
  [("jsonrpc", .str "2.0"), ("id", idv), ("result", v)]

/-- The synthesized timeout response built by `method_return_callback` when
the timer fires with no reply (lines 338-346). -/
def timeoutReply (i : Nat) : Msg :=
  [("jsonrpc", .str "2.0"), ("id", .num (Int.ofNat i)),
   ("error", errorObj ⟨"Timeout", "Method call timed out", .null⟩)]

/-- A message is treated as a response by `MessageBusConnectionBase.dispatch`
when it carries a `result` or an `error` field (line 311). -/
def isResponse (m : Msg) : Bool :=
  (alookup m "result").isSome || (alookup m "error").isSome

/-- The correlation key `message['id']` read by `dispatch` (line 312),
restricted to the nonnegative-integer ids this implementation allocates. -/
def msgIdNat (m : Msg) : Option Nat :=
  match alookup m "id" with
  | some (.num (Int.ofNat k)) => some k
  | _ => none

/-- The call-table-relevant state of one `MessageBusConnectionBase`
(lines 80-118): `next_serial` (starts at 1), the ids of the outstanding
entries of `method_calls` in registration order, and the `closed` flag.
A registered entry's timeout timer is armed exactly while the entry is
outstanding: `call_method` arms it on registration (line 353) and the
callback cancels it on reply delivery (line 350); `close` (lines 227-244)
touches neither the table nor the timers. -/
structure CallState where
  nextSerial : Nat
  methodCalls : List Nat
  closed : Bool
deriving DecidableEq

/-- Initial state of a freshly constructed connection (lines 102-110). -/
def initState : CallState := { nextSerial := 1, methodCalls := [], closed := false }

/-- The events the call-table machinery reacts to.  `callMethod` is a
`call_method` invocation that registers a reply callback — the synchronous
variant `MessageBusConnection.call_method` (lines 405-421) always registers
one internally, so it is the same event.  `replyArrive` is `dispatch`
popping a response message (lines 311-315) together with the deferred run
of `method_return_callback` on it (lines 349-351).  `timerFire` is the
timeout timer of an entry firing (lines 337-348).  `close` is `close()`. -/
inductive Ev where
  | callMethod
  | replyArrive (m : Msg)
  | timerFire (i : Nat)
  | close

/-- Observable effects of a step: an id allocation by `call_method`, a
delivery of a reply message to the registered callback of an id, a silent
drop of a reply whose id has no outstanding entry (line 313 pops `None`),
and the `ConnectionClosed` event raised by `close` (line 244). -/
inductive Emis where
  | allocated (i : Nat)
  | delivered (i : Nat) (reply : Msg)
  | droppedReply (i : Nat)
  | connectionClosed

/-- The state change of `call_method` (lines 325-335, 354): allocate
`id = next_serial`, bump the serial, register the callback under the id. -/
def callMethodState (s : CallState) : CallState :=
  { s with nextSerial := s.nextSerial + 1,
           methodCalls := s.methodCalls ++ [s.nextSerial] }

/-- One step of the call-table transition system.  `none` marks events the
code cannot experience (a response without an integer id raises KeyError at
line 312 rather than being handled; a timer only exists while its entry is
outstanding).  Note that `close` checks only the `closed` flag (line 229)
and never touches `method_calls`, and that `timerFire` and `replyArrive`
do not consult `closed` at all. -/
def stepFn (s : CallState) : Ev → Option (CallState × List Emis)
  | .callMethod =>
      some (callMethodState s, [.allocated s.nextSerial])
  | .replyArrive m =>
      if isResponse m then
        match msgIdNat m with
        | some k =>
            if k ∈ s.methodCalls then
              some ({ s with methodCalls := s.methodCalls.erase k },
                    [.delivered k m])
            else
              some (s, [.droppedReply k])
        | none => none
      else none
  | .timerFire i =>
      if i ∈ s.methodCalls then
        some ({ s with methodCalls := s.methodCalls.erase i },
              [.delivered i (timeoutReply i)])
      else none
  | .close =>
      if s.closed then some (s, [])
      else some ({ s with closed := true }, [.connectionClosed])

/-- Run a list of events from a state, collecting the emissions. -/
def runEvents : CallState → List Ev → Option (CallState × List Emis)
  | s, [] => some (s, [])
  | s, e :: rest =>
      match stepFn s e with
      | none => none
      | some (s', es) =>
          match runEvents s' rest with
          | none => none
          | some (s'', es') => some (s'', es ++ es')

/-- The ids allocated along a trace, in order. -/
def allocList (out : List Emis) : List Nat :=
  out.filterMap fun e =>
    match e with
    | .allocated i => some i
    | _ => none

/-- How many deliveries the callback registered under id `i` received. -/
def deliveredCount (out : List Emis) (i : Nat) : Nat :=
  (out.filter fun e =>
    match e with
    | .delivered j _ => j = i
    | _ => false).length

/-- How many `ConnectionClosed` events were raised along a trace. -/
def closedCount (out : List Emis) : Nat :=
  (out.filter fun e =>
    match e with
    | .connectionClosed => true
    | _ => false).length

/-- The reachability invariant of the call table: the serial is at least 1,
the allocated ids are exactly `1, 2, …, next_serial - 1` in order, the
outstanding ids are distinct and below the serial, every allocated id is
accounted for by exactly one delivery or one outstanding entry, and
`ConnectionClosed` has been raised exactly once iff `closed` is set. -/
def Inv (s : CallState) (out : List Emis) : Prop :=
  1 ≤ s.nextSerial
  ∧ allocList out = List.range' 1 (s.nextSerial - 1)
  ∧ s.methodCalls.Nodup
  ∧ (∀ i ∈ s.methodCalls, 1 ≤ i ∧ i < s.nextSerial)
  ∧ (∀ i, deliveredCount out i + (if i ∈ s.methodCalls then 1 else 0)
        = (allocList out).count i)
  ∧ closedCount out = (if s.closed then 1 else 0)

/-- `max_incoming_messages` (line 75). -/
def maxIncomingMessages : Nat := 100

/-- Flow-control state of an open connection: the inbound message queue
length (`len(self._incoming)`), the read-watch flag `_reading` (which the
throttle logic keeps equal to the watch's enabled state while the
connection is open), and `closed`. -/
structure FlowState where
  incoming : Nat
  reading : Bool
  closed : Bool
deriving DecidableEq

/-- Initial flow state (lines 116-117): empty queue, read watch enabled. -/
def flowInit : FlowState := { incoming := 0, reading := true, closed := false }

/-- Flow events: one iteration of the `_do_read` outer loop that appends
`k` newly framed messages to the queue and then runs the throttle test of
lines 170-174, and one `pop_incoming` of a valid message (lines 256-272). -/
inductive FlowEv where
  | readPass (k : Nat)
  | popIncoming

/-- One flow-control step.  `_do_read` only runs while the watch is enabled
and the connection open; it disables the watch when the queue length
exceeds `max_incoming_messages` (strict `>`, line 170).  `pop_incoming`
re-enables the watch only when the watch is disabled, the connection open,
and the queue length after the pop is strictly below the limit
(lines 267-271). -/
def flowStep (s : FlowState) : FlowEv → Option FlowState
  | .readPass k =>
      if s.reading = true ∧ s.closed = false then
        let q := s.incoming + k
        if maxIncomingMessages < q then
          some { incoming := q, reading := false, closed := s.closed }
        else
          some { s with incoming := q }
      else none
  | .popIncoming =>
      if 0 < s.incoming then
        let q := s.incoming - 1
        if s.reading = false ∧ s.closed = false ∧ q < maxIncomingMessages then
          some { incoming := q, reading := true, closed := s.closed }
        else
          some { s with incoming := q }
      else none

/-- Run a list of flow events. -/
def flowRun : FlowState → List FlowEv → Option FlowState
  | s, [] => some s
  | s, e :: rest =>
      match flowStep s e with
      | none => none
      | some s' => flowRun s' rest

/-- How `pop_incoming` plus the two dispatchers treat one framed message
(assuming a handler is installed).  `closeConn`: `pop_incoming` closes the
connection (decode failure, non-object root, missing/non-string `jsonrpc`,
or `jsonrpc != "2.0"`, lines 214-225 and 262-266).  `response`: routed to
the call table (line 311, a `result` or `error` field present and an `id`
to read).  `responseKeyError`: a `result`/`error` field present but no
`id` — line 312 raises an uncaught KeyError.  `handlerRequest` /
`handlerSignal`: the two branches of `MessageBusHandler.dispatch`
(lines 556-559).  `droppedNoDispatch`: neither branch matches and the
message is silently ignored. -/
inductive InboundOutcome where
  | closeConn
  | response
  | responseKeyError
  | handlerRequest
  | handlerSignal
  | droppedNoDispatch
deriving DecidableEq

/-- The classification pipeline applied to one framed message; the argument
is the result of `json.try_loads(serialized, dict)` (line 262), `none` when
the frame does not decode to a JSON object. -/
def classifyIncoming : Option Msg → InboundOutcome
  | none => .closeConn
  | some m =>
      match alookup m "jsonrpc" with
      | some (JVal.str v) =>
          if v = "2.0" then
            if (alookup m "result").isSome || (alookup m "error").isSome then
              if (alookup m "id").isSome then .response else .responseKeyError
            else if (alookup m "method").isSome then
              if (alookup m "id").isSome then .handlerRequest
              else .handlerSignal
            else .droppedNoDispatch
          else .closeConn
      | _ => .closeConn

/-- The shape `inspect.getargspec` reports for a registered handler, as
consumed by `_check_callable` (lines 488-495): the number of declared
positional parameters (`len(spec.args)`, including `self`, since the
registry stores bound methods), the number of parameters with defaults
(`len(spec.defaults)`, 0 when `spec.defaults` is `None`), and whether the
handler declares `*args`. -/
structure ArgSpec where
  nargs : Nat
  ndefaults : Nat
  varargs : Bool

/-- `_check_callable(handler, args)` (lines 484-499), for the `callable`
handlers the registry stores.  Faithful to the source quirks: `minargs`
may go negative (hence `Int`), and the `self` adjustment of `maxargs` is
guarded by Python truthiness (`if maxargs:`), so it is skipped both for
`None` (varargs) and for the value 0. -/
def check_callable (sp : ArgSpec) (given : Nat) : Bool :=
  let minargs0 : Int := (sp.nargs : Int) - (sp.ndefaults : Int)
  let maxargs0 : Option Int := if sp.varargs then none else some (sp.nargs : Int)
  let minargs : Int := minargs0 - 1
  let maxargs : Option Int :=
    match maxargs0 with
    | some m => if m = 0 then some m else some (m - 1)
    | none => none
  decide (minargs ≤ (given : Int)) &&
    (match maxargs with
     | none => true
     | some m => decide ((given : Int) ≤ m))

/-- Outcome of invoking a handler body: a normal return carrying the
returned value and the final `response_sent` flag of the per-dispatch
context (set by `early_response`/`delay_response`, lines 561-582; it is
initialized to `False` at line 516 before the invocation), a raised
`StructuredError`, or any other uncaught exception. -/
inductive HRes where
  | ret (v : JVal) (responseSent : Bool)
  | structErr (e : StructuredError)
  | uncaught

/-- A registered method handler: its introspected argument spec and its
body. -/
structure Handler where
  spec : ArgSpec
  run : List JVal → HRes

/-- `message.get('params', ())` (line 510) for the list-shaped params this
protocol sends. -/
def getParams (m : Msg) : List JVal :=
  match alookup m "params" with
  | some (.arr xs) => xs
  | _ => []

/-- `_dispatch_method_call(message, connection)` (lines 501-530).  Returns
the reply the dispatcher itself enqueues on the connection (`none` when
`response_sent` was already true on return, line 529) together with a
flag recording whether the handler body was invoked. -/
def dispatch_method_call (methods : List (String × Handler)) (m : Msg) :
    Option Msg × Bool :=
  let name := match alookup m "method" with
    | some (.str s) => s
    | _ => ""
  let idv := match alookup m "id" with
    | some v => v
    | none => .null
  match alookup methods name with
  | none => (some (errorReply idv ⟨"NotFound", "No such method call", .null⟩), false)
  | some handler =>
      let args := getParams m
      if check_callable handler.spec args.length then
        match handler.run args with
        | .structErr e => (some (errorReply idv e), true)
        | .uncaught =>
            (some (errorReply idv ⟨"UncaughtException", "", .null⟩), true)
        | .ret v responseSent =>
            (if responseSent then none else some (resultReply idv v), true)
      else
        (some (errorReply idv ⟨"InvalidCall", "Wrong number of arguments", .null⟩), false)

/-- The `client is None or fnmatch(connection.peer_name, client)` test of
`MessageBusServer.call_method` (line 656).  `fnmatch` is an external
library function; it is taken as the parameter `fm`. -/
def connSelected (fm : String → String → Bool) (client : Option String)
    (peer : String) : Bool :=
  match client with
  | none => true
  | some pat => fm peer pat

/-- The registration loop of `MessageBusServer.call_method`
(lines 654-657): on every connection whose peer name is selected, run
`connection.call_method(name, *args, callback=method_return_callback)` —
the one shared callback — so each selected connection's call table gains
an entry under that connection's own `next_serial`.  Returns the updated
connection list and the list of `(peer, id)` registrations made. -/
def serverFanout (fm : String → String → Bool) (client : Option String) :
    List (String × CallState) → List (String × CallState) × List (String × Nat)
  | [] => ([], [])
  | (peer, cs) :: rest =>
      let r := serverFanout fm client rest
      if connSelected fm client peer then
        ((peer, callMethodState cs) :: r.1, (peer, cs.nextSerial) :: r.2)
      else
        ((peer, cs) :: r.1, r.2)

/-- Modelled from the spec: the gevent `Waiter` used at lines 651-653 and
658 comes from the external concurrency substrate; per spec section 4.7 a
rendezvous is "a one-shot value handoff: one task waits, another resumes
it with a value", so `waiter.get()` yields the value of the first
`waiter.switch(message)` and every later switch is accepted and
discarded.  The argument lists the switched messages in arrival order. -/
def waiterGet (switches : List Msg) : Option Msg := switches.head?

/-- What `MessageBusServer.call_method` does with the winning reply
(lines 658-663): raise `MessageBusError(reply['error']['code'],
reply['error'].get('data'))` when an `error` field is present, else return
`reply.get('result')`. -/
inductive FanReturn where
  | raised (code : Option JVal) (dat : Option JVal)
  | value (v : Option JVal)

/-- Translate one reply message into the fan-out caller's outcome. -/
def fanReturnOf (reply : Msg) : FanReturn :=
  match alookup reply "error" with
  | some e => .raised (jget e "code") (jget e "data")
  | none => .value (alookup reply "result")

/-- The full blocking tail of `MessageBusServer.call_method`: wait for the
first switched reply, then convert it; `none` only if no reply is ever
switched. -/
def serverReturn (switches : List Msg) : Option FanReturn :=
  (waiterGet switches).map fanReturnOf

/-- Well-formedness of a scanner state: the depth counter is positive in
the `object`, `string` and `stringEscape` states.  Every state the loop of
`find_message_end` passes to the next iteration satisfies this (the loop
returns as soon as the depth reaches 0). -/
def StateOK : ScanState → Prop
  | .preamble => True
  | .object d => 1 ≤ d
  | .string d => 1 ≤ d
  | .stringEscape d => 1 ≤ d

/-! ### Frame scanner lemmas -/

theorem object_ne_zero {d : Nat} (hd : 1 ≤ d) :
    ScanState.object d ≠ ScanState.object 0 := by
  intro h
  injection h with h'
  omega

theorem pyIsSpace_ne_open {c : Char} (h : pyIsSpace c = true) : c ≠ '{' := by
  intro he
  subst he
  exact absurd h (by decide)

theorem scanStep_object_plain {d : Nat} {c : Char} (h1 : c ≠ '{') (h2 : c ≠ '}')
    (h3 : c ≠ '"') : scanStep (.object d) c = some (.object d) := by
  simp only [scanStep, if_neg h1, if_neg h2, if_neg h3]

theorem scanStep_string_plain {d : Nat} {c : Char} (h1 : c ≠ '"') (h2 : c ≠ '\\') :
    scanStep (.string d) c = some (.string d) := by
  simp only [scanStep, if_neg h1, if_neg h2]

theorem scanStep_preamble_ws {c : Char} (h : pyIsSpace c = true) :
    scanStep .preamble c = some .preamble := by
  simp only [scanStep, if_neg (pyIsSpace_ne_open h), h, if_pos]

theorem scanStep_preamble_err {c : Char} (h1 : c ≠ '{') (h2 : pyIsSpace c = false) :
    scanStep .preamble c = none := by
  simp only [scanStep, if_neg h1, h2, Bool.false_eq_true, if_false]

theorem scanNR_cons {st st' : ScanState} {c : Char} {cs : List Char}
    (h : scanStep st c = some st') (h0 : st' ≠ ScanState.object 0) :
    scanNR st (c :: cs) = scanNR st' cs := by
  simp only [scanNR, h, if_neg h0]

theorem scanNR_cons_none {st : ScanState} {c : Char} {cs : List Char}
    (h : scanStep st c = none) : scanNR st (c :: cs) = none := by
  simp only [scanNR, h]

theorem scanNR_cons_zero {st : ScanState} {c : Char} {cs : List Char}
    (h : scanStep st c = some (ScanState.object 0)) :
    scanNR st (c :: cs) = none := by
  simp [scanNR, h]

theorem scanFrom_cons {st st' : ScanState} {c : Char} {cs : List Char}
    (h : scanStep st c = some st') (h0 : st' ≠ ScanState.object 0) :
    scanFrom st (c :: cs) = (scanFrom st' cs).shift 1 := by
  simp only [scanFrom, h, if_neg h0]
  cases scanFrom st' cs <;> simp [ScanResult.shift]

theorem scanFrom_cons_none {st : ScanState} {c : Char} {cs : List Char}
    (h : scanStep st c = none) : scanFrom st (c :: cs) = ScanResult.err := by
  simp only [scanFrom, h]

theorem scanFrom_cons_zero {st : ScanState} {c : Char} {cs : List Char}
    (h : scanStep st c = some (ScanState.object 0)) :
    scanFrom st (c :: cs) = ScanResult.found 0 := by
  simp [scanFrom, h]

theorem shift_zero (r : ScanResult) : r.shift 0 = r := by
  cases r <;> simp [ScanResult.shift]

theorem shift_shift (r : ScanResult) (m n : Nat) :
    (r.shift m).shift n = r.shift (m + n) := by
  cases r with
  | found i => simp [ScanResult.shift, Nat.add_assoc]
  | err => rfl
  | notFound => rfl

theorem shift_eq_err {r : ScanResult} {n : Nat} :
    r.shift n = ScanResult.err ↔ r = ScanResult.err := by
  cases r <;> simp [ScanResult.shift]

theorem scanNR_append_some {xs : List Char} :
    ∀ {st st1 : ScanState} (ys : List Char), scanNR st xs = some st1 →
      scanNR st (xs ++ ys) = scanNR st1 ys := by
  induction xs with
  | nil =>
      intro st st1 ys h
      simp only [scanNR] at h
      cases h
      rfl
  | cons c xs' ih =>
      intro st st1 ys h
      cases hc : scanStep st c with
      | none => rw [scanNR_cons_none hc] at h; exact absurd h (by simp)
      | some st2 =>
          by_cases h0 : st2 = ScanState.object 0
          · subst h0
            rw [scanNR_cons_zero hc] at h
            exact absurd h (by simp)
          · rw [scanNR_cons hc h0] at h
            rw [List.cons_append, scanNR_cons hc h0]
            exact ih ys h

theorem scanNR_of_append {xs ys : List Char} :
    ∀ {st st2 : ScanState}, scanNR st (xs ++ ys) = some st2 →
      ∃ st1, scanNR st xs = some st1 := by
  induction xs with
  | nil => intro st st2 _; exact ⟨st, rfl⟩
  | cons c xs' ih =>
      intro st st2 h
      rw [List.cons_append] at h
      cases hc : scanStep st c with
      | none => rw [scanNR_cons_none hc] at h; exact absurd h (by simp)
      | some st1 =>
          by_cases h0 : st1 = ScanState.object 0
          · subst h0
            rw [scanNR_cons_zero hc] at h
            exact absurd h (by simp)
          · rw [scanNR_cons hc h0] at h
            rw [scanNR_cons hc h0]
            exact ih h

theorem scanFrom_of_scanNR {xs : List Char} :
    ∀ {st st1 : ScanState} (ys : List Char), scanNR st xs = some st1 →
      scanFrom st (xs ++ ys) = (scanFrom st1 ys).shift xs.length := by
  induction xs with
  | nil =>
      intro st st1 ys h
      simp only [scanNR] at h
      cases h
      simp [shift_zero]
  | cons c xs' ih =>
      intro st st1 ys h
      cases hc : scanStep st c with
      | none => rw [scanNR_cons_none hc] at h; exact absurd h (by simp)
      | some st2 =>
          by_cases h0 : st2 = ScanState.object 0
          · subst h0
            rw [scanNR_cons_zero hc] at h
            exact absurd h (by simp)
          · rw [scanNR_cons hc h0] at h
            rw [List.cons_append, scanFrom_cons hc h0, ih ys h, shift_shift]
            simp only [List.length_cons]

theorem scanFrom_of_scanNR_self {xs : List Char} {st st1 : ScanState}
    (h : scanNR st xs = some st1) : scanFrom st xs = ScanResult.notFound := by
  have := scanFrom_of_scanNR ([] : List Char) h
  rw [List.append_nil] at this
  rw [this]
  rfl

theorem preamble_ne_object0 : ScanState.preamble ≠ ScanState.object 0 :=
  fun h => ScanState.noConfusion h

theorem string_ne_object0 {d : Nat} : ScanState.string d ≠ ScanState.object 0 :=
  fun h => ScanState.noConfusion h

theorem stringEscape_ne_object0 {d : Nat} :
    ScanState.stringEscape d ≠ ScanState.object 0 :=
  fun h => ScanState.noConfusion h

theorem scanNR_inner {s : List Char} (h : IsInner s) (d : Nat) :
    scanNR (.string d) s = some (.string d) := by
  induction h with
  | nil => rfl
  | @cons u s' hu _ ih =>
      cases hu with
      | esc c =>
          show scanNR (ScanState.string d) ('\\' :: c :: s') = some (ScanState.string d)
          rw [scanNR_cons (show scanStep (.string d) '\\' = some (.stringEscape d) from rfl)
                stringEscape_ne_object0,
              scanNR_cons (show scanStep (.stringEscape d) c = some (.string d) from rfl)
                string_ne_object0]
          exact ih
      | plain c h1 h2 =>
          show scanNR (ScanState.string d) (c :: s') = some (ScanState.string d)
          rw [scanNR_cons (scanStep_string_plain h1 h2) string_ne_object0]
          exact ih

theorem scanNR_gram {k : Nat} {s : List Char} (h : Gram k s) :
    ∀ d : Nat, 1 ≤ d → scanNR (.object d) s = some (.object d) := by
  induction h with
  | @obj body _ ih =>
      intro d hd
      show scanNR (ScanState.object d) ('{' :: (body ++ ['}'])) = some (ScanState.object d)
      rw [scanNR_cons (show scanStep (.object d) '{' = some (.object (d + 1)) from rfl)
            (object_ne_zero (by omega)),
          scanNR_append_some _ (ih (d + 1) (by omega)),
          scanNR_cons (show scanStep (.object (d + 1)) '}' = some (.object (d + 1 - 1)) from rfl)
            (by simpa using object_ne_zero hd)]
      rfl
  | bodyNil => intro d _; rfl
  | @bodyCons it s' _ _ ihit ihs =>
      intro d hd
      rw [scanNR_append_some _ (ihit d hd)]
      exact ihs d hd
  | itemPlain c h1 h2 h3 =>
      intro d hd
      rw [show ([c] : List Char) = c :: [] from rfl,
          scanNR_cons (scanStep_object_plain h1 h2 h3) (object_ne_zero hd)]
      rfl
  | @itemStr inner hinner =>
      intro d hd
      show scanNR (ScanState.object d) ('"' :: (inner ++ ['"'])) = some (ScanState.object d)
      rw [scanNR_cons (show scanStep (.object d) '"' = some (.string d) from rfl)
            string_ne_object0,
          scanNR_append_some _ (scanNR_inner hinner d),
          scanNR_cons (show scanStep (.string d) '"' = some (.object d) from rfl)
            (object_ne_zero hd)]
      rfl
  | itemObj _ ih => exact ih

theorem scanNR_ws {ws : List Char} (h : ∀ c ∈ ws, pyIsSpace c = true) :
    scanNR .preamble ws = some .preamble := by
  induction ws with
  | nil => rfl
  | cons c rest ih =>
      rw [scanNR_cons (scanStep_preamble_ws (h c (List.mem_cons_self c rest))) preamble_ne_object0]
      exact ih fun x hx => h x (List.mem_cons_of_mem c hx)

theorem scanStep_stays_off_preamble {st st' : ScanState} {c : Char}
    (hst : st ≠ ScanState.preamble) (h : scanStep st c = some st') :
    st' ≠ ScanState.preamble := by
  cases st with
  | preamble => exact absurd rfl hst
  | object d =>
      simp only [scanStep] at h
      split at h <;> first
        | (cases h; exact fun hh => ScanState.noConfusion hh)
        | (split at h <;> first
            | (cases h; exact fun hh => ScanState.noConfusion hh)
            | (split at h <;> (cases h; exact fun hh => ScanState.noConfusion hh)))
  | string d =>
      simp only [scanStep] at h
      split at h <;> first
        | (cases h; exact fun hh => ScanState.noConfusion hh)
        | (split at h <;> (cases h; exact fun hh => ScanState.noConfusion hh))
  | stringEscape d =>
      cases h
      exact fun hh => ScanState.noConfusion hh

theorem scanStep_total_off_preamble {st : ScanState} {c : Char}
    (hst : st ≠ ScanState.preamble) : ∃ st', scanStep st c = some st' := by
  cases st with
  | preamble => exact absurd rfl hst
  | object d =>
      simp only [scanStep]
      split
      · exact ⟨_, rfl⟩
      · split
        · exact ⟨_, rfl⟩
        · split
          · exact ⟨_, rfl⟩
          · exact ⟨_, rfl⟩
  | string d =>
      simp only [scanStep]
      split
      · exact ⟨_, rfl⟩
      · split
        · exact ⟨_, rfl⟩
        · exact ⟨_, rfl⟩
  | stringEscape d => exact ⟨_, rfl⟩

theorem scanFrom_no_err_off_preamble {cs : List Char} :
    ∀ {st : ScanState}, st ≠ ScanState.preamble →
      scanFrom st cs ≠ ScanResult.err := by
  induction cs with
  | nil => intro st _ h; exact ScanResult.noConfusion h
  | cons c rest ih =>
      intro st hst
      obtain ⟨st', hc⟩ := scanStep_total_off_preamble (c := c) hst
      by_cases h0 : st' = ScanState.object 0
      · subst h0
        rw [scanFrom_cons_zero hc]
        exact fun hh => ScanResult.noConfusion hh
      · rw [scanFrom_cons hc h0]
        intro hh
        exact ih (scanStep_stays_off_preamble hst hc) (shift_eq_err.mp hh)

theorem scanFrom_preamble_err_iff {cs : List Char} :
    scanFrom ScanState.preamble cs = ScanResult.err ↔ wsBeforeBrace cs = false := by
  induction cs with
  | nil =>
      constructor
      · intro h; exact absurd h (fun hh => ScanResult.noConfusion hh)
      · intro h; exact absurd h (by simp [wsBeforeBrace])
  | cons c rest ih =>
      by_cases hbr : c = '{'
      · subst hbr
        rw [scanFrom_cons (show scanStep .preamble '{' = some (.object 1) from rfl)
              (object_ne_zero (by omega))]
        constructor
        · intro h
          exact absurd (shift_eq_err.mp h)
            (scanFrom_no_err_off_preamble (fun hh => ScanState.noConfusion hh))
        · intro h
          exact absurd h (by simp [wsBeforeBrace])
      · by_cases hws : pyIsSpace c = true
        · rw [scanFrom_cons (scanStep_preamble_ws hws) preamble_ne_object0]
          rw [show wsBeforeBrace (c :: rest) = wsBeforeBrace rest by
                simp [wsBeforeBrace, if_neg hbr, hws]]
          rw [shift_eq_err]
          exact ih
        · rw [scanFrom_cons_none (scanStep_preamble_err hbr (by simpa using hws))]
          simp [wsBeforeBrace, if_neg hbr, Bool.not_eq_true] at hws ⊢
          simp [hws]

theorem scanStep_found_close {st st' : ScanState} {c : Char} (hok : StateOK st)
    (h : scanStep st c = some st') (h0 : st' = ScanState.object 0) : c = '}' := by
  subst h0
  cases st with
  | preamble =>
      simp only [scanStep] at h
      split at h
      · simp at h
      · split at h
        · simp at h
        · cases h
  | object d =>
      simp only [StateOK] at hok
      simp only [scanStep] at h
      split at h
      · simp at h
      · split at h
        · assumption
        · split at h
          · simp at h
          · simp at h; omega
  | string d =>
      simp only [StateOK] at hok
      simp only [scanStep] at h
      split at h
      · simp at h; omega
      · split at h
        · simp at h
        · simp at h
  | stringEscape d =>
      simp only [scanStep] at h
      simp at h

theorem scanStep_keeps_ok {st st' : ScanState} {c : Char} (hok : StateOK st)
    (h : scanStep st c = some st') (h0 : st' ≠ ScanState.object 0) :
    StateOK st' := by
  cases st with
  | preamble =>
      simp only [scanStep] at h
      split at h
      · cases h; simp [StateOK]
      · split at h
        · cases h; simp [StateOK]
        · cases h
  | object d =>
      simp only [StateOK] at hok
      simp only [scanStep] at h
      split at h
      · cases h; simp [StateOK]
      · split at h
        · cases h
          simp only [StateOK]
          by_cases hd : d - 1 = 0
          · exact absurd (by simp [hd]) h0
          · omega
        · split at h
          · cases h; simpa [StateOK] using hok
          · cases h; simpa [StateOK] using hok
  | string d =>
      simp only [StateOK] at hok
      simp only [scanStep] at h
      split at h
      · cases h; simpa [StateOK] using hok
      · split at h
        · cases h; simpa [StateOK] using hok
        · cases h; simpa [StateOK] using hok
  | stringEscape d =>
      simp only [StateOK] at hok
      cases h
      simpa [StateOK] using hok

theorem scanFrom_found_close {cs : List Char} :
    ∀ {st : ScanState} {i : Nat}, StateOK st → scanFrom st cs = ScanResult.found i →
      i < cs.length ∧ cs.get? i = some '}' := by
  induction cs with
  | nil => intro st i _ h; exact absurd h (fun hh => ScanResult.noConfusion hh)
  | cons c rest ih =>
      intro st i hok h
      cases hc : scanStep st c with
      | none => rw [scanFrom_cons_none hc] at h; exact absurd h (by simp)
      | some st' =>
          by_cases h0 : st' = ScanState.object 0
          · subst h0
            rw [scanFrom_cons_zero hc] at h
            injection h with h'
            subst h'
            refine ⟨by simp, ?_⟩
            rw [scanStep_found_close hok hc rfl]
            rfl
          · rw [scanFrom_cons hc h0] at h
            cases hr : scanFrom st' rest with
            | err => rw [hr] at h; exact absurd h (by simp [ScanResult.shift])
            | notFound => rw [hr] at h; exact absurd h (by simp [ScanResult.shift])
            | found j =>
                rw [hr] at h
                simp only [ScanResult.shift] at h
                injection h with h'
                obtain ⟨hlt, hget⟩ := ih (scanStep_keeps_ok hok hc h0) hr
                subst h'
                constructor
                · simp only [List.length_cons]; omega
                · simpa using hget

theorem string_mk_data (l : List Char) : (String.mk l).data = l := rfl

theorem stateOK_preamble : StateOK ScanState.preamble := by
  simp [StateOK]

/-- C2: for a buffer of optional whitespace, then a complete top-level
JSON object, then anything (in particular further complete objects and a
partial one), `find_message_end` returns exactly the index of the last
byte of the first complete object — braces inside quoted strings,
including after backslash escapes, are content, and no earlier index is
returned; for whitespace followed by a strict prefix of an object it
returns the sentinel `-1`; and it fails (`ValueError`) when a
non-whitespace character stands before the first `'{'`. -/
theorem C2_frame_scanner_exact (ws obj rest : List Char)
    (hws : ∀ c ∈ ws, pyIsSpace c = true) (hobj : Gram 0 obj) :
    find_message_end (String.mk (ws ++ (obj ++ rest)))
        = Except.ok (Int.ofNat (ws.length + obj.length - 1))
    ∧ (∀ p t, p ++ t = obj → p.length < obj.length →
        find_message_end (String.mk (ws ++ p)) = Except.ok (-1))
    ∧ (∀ c rest2, pyIsSpace c = false → c ≠ '{' →
        find_message_end (String.mk (ws ++ c :: rest2)) = Except.error ()) := by
  cases hobj with
  | @obj body hbody =>
  refine ⟨?_, ?_, ?_⟩
  · have h1 : scanFrom ScanState.preamble (ws ++ (('{' :: body ++ ['}']) ++ rest))
        = ScanResult.found (0 + body.length + 1 + ws.length) := by
      rw [scanFrom_of_scanNR _ (scanNR_ws hws),
          show ('{' :: body ++ ['}']) ++ rest = '{' :: (body ++ ('}' :: rest)) by simp,
          scanFrom_cons (show scanStep .preamble '{' = some (.object 1) from rfl)
            (object_ne_zero (by omega)),
          scanFrom_of_scanNR _ (scanNR_gram hbody 1 (by omega)),
          scanFrom_cons_zero (show scanStep (.object 1) '}' = some (.object 0) from rfl)]
      simp [ScanResult.shift]
    simp only [find_message_end, string_mk_data, h1]
    congr 2
    simp only [List.length_cons, List.length_append, List.length_singleton, List.length_nil]
    omega
  · intro p t hpt hplen
    cases p with
    | nil =>
        have h1 : scanFrom ScanState.preamble ws = ScanResult.notFound :=
          scanFrom_of_scanNR_self (scanNR_ws hws)
        simp [find_message_end, string_mk_data, h1]
    | cons c p' =>
        rw [List.cons_append] at hpt
        injection hpt with hc hrest
        subst hc
        simp only [List.append_eq] at hrest
        have hple : p'.length ≤ body.length := by
          simp only [List.length_cons, List.length_append, List.length_singleton,
            List.length_nil] at hplen
          omega
        have hpref : ∃ t2, p' ++ t2 = body := by
          have hp' : p' = body.take p'.length := by
            have h3 := congrArg (List.take p'.length) hrest
            rw [List.take_append_of_le_length (by omega)] at h3
            rw [List.take_append_of_le_length hple] at h3
            simpa using h3
          have h4 : body.take p'.length ++ body.drop p'.length = body :=
            List.take_append_drop _ _
          rw [← hp'] at h4
          exact ⟨body.drop p'.length, h4⟩
        obtain ⟨t2, ht2⟩ := hpref
        have hbody1 : scanNR (ScanState.object 1) (p' ++ t2)
            = some (ScanState.object 1) := by
          rw [ht2]
          exact scanNR_gram hbody 1 (by omega)
        obtain ⟨st1, hst1⟩ := scanNR_of_append hbody1
        have h1 : scanFrom ScanState.preamble (ws ++ ('{' :: p')) = ScanResult.notFound := by
          rw [scanFrom_of_scanNR _ (scanNR_ws hws),
              scanFrom_cons (show scanStep .preamble '{' = some (.object 1) from rfl)
                (object_ne_zero (by omega)),
              scanFrom_of_scanNR_self hst1]
          rfl
        simp [find_message_end, string_mk_data, h1]
  · intro c rest2 hnw hnb
    have h1 : scanFrom ScanState.preamble (ws ++ (c :: rest2)) = ScanResult.err := by
      rw [scanFrom_of_scanNR _ (scanNR_ws hws),
          scanFrom_cons_none (scanStep_preamble_err hnb hnw)]
      rfl
    simp [find_message_end, string_mk_data, h1]

/-- Witness for C2 at the concrete inputs `" {}x"`, `" {"` and `" ab"`. -/
theorem C2_frame_scanner_exact_witness :
    find_message_end (String.mk ([' '] ++ (['{', '}'] ++ ['x']))) = Except.ok (Int.ofNat 2)
    ∧ find_message_end (String.mk ([' '] ++ ['{'])) = Except.ok (-1)
    ∧ find_message_end (String.mk ([' '] ++ 'a' :: ['b'])) = Except.error () := by
  have h := C2_frame_scanner_exact [' '] ['{', '}'] ['x'] (by decide)
    (Gram.obj Gram.bodyNil)
  exact ⟨h.1, h.2.1 ['{'] ['}'] rfl (by decide), h.2.2 'a' ['b'] (by decide) (by decide)⟩

/-- C10: on any buffer whose characters before the first `'{'` are all
whitespace (vacuously including brace-free buffers), `find_message_end`
returns without raising, and the result is either the sentinel `-1` or an
in-range index pointing at a `'}'`; it raises `ValueError` exactly when a
non-whitespace character precedes the first `'{'`. -/
theorem C10_find_message_end_safe (buf : List Char) :
    (wsBeforeBrace buf = true →
      ∃ r : Int, find_message_end (String.mk buf) = Except.ok r ∧
        (r = -1 ∨ ∃ i : Nat, r = Int.ofNat i ∧ i < buf.length ∧ buf.get? i = some '}'))
    ∧ (find_message_end (String.mk buf) = Except.error () ↔ wsBeforeBrace buf = false) := by
  constructor
  · intro hws
    cases hr : scanFrom ScanState.preamble buf with
    | err =>
        rw [scanFrom_preamble_err_iff] at hr
        rw [hws] at hr
        exact absurd hr (by simp)
    | notFound => exact ⟨-1, by simp [find_message_end, string_mk_data, hr], Or.inl rfl⟩
    | found i =>
        obtain ⟨hlt, hget⟩ := scanFrom_found_close stateOK_preamble hr
        exact ⟨Int.ofNat i, by simp [find_message_end, string_mk_data, hr],
               Or.inr ⟨i, rfl, hlt, hget⟩⟩
  · constructor
    · intro h
      cases hr : scanFrom ScanState.preamble buf with
      | err => exact scanFrom_preamble_err_iff.mp hr
      | notFound => simp [find_message_end, string_mk_data, hr] at h
      | found i => simp [find_message_end, string_mk_data, hr] at h
    · intro h
      have h1 := scanFrom_preamble_err_iff.mpr h
      simp [find_message_end, string_mk_data, h1]

/-- Witness for C10 at the concrete inputs `" {}"` and `"a"`. -/
theorem C10_find_message_end_safe_witness :
    (∃ r : Int, find_message_end (String.mk [' ', '{', '}']) = Except.ok r ∧
      (r = -1 ∨ ∃ i : Nat, r = Int.ofNat i ∧ i < ([' ', '{', '}'] : List Char).length ∧
        ([' ', '{', '}'] : List Char).get? i = some '}'))
    ∧ (find_message_end (String.mk ['a']) = Except.error () ↔ wsBeforeBrace ['a'] = false) :=
  ⟨(C10_find_message_end_safe [' ', '{', '}']).1 (by decide),
   (C10_find_message_end_safe ['a']).2⟩

/-! ### Call table lemmas -/

theorem allocList_append (a b : List Emis) :
    allocList (a ++ b) = allocList a ++ allocList b := by
  simp [allocList, List.filterMap_append]

theorem deliveredCount_append (a b : List Emis) (i : Nat) :
    deliveredCount (a ++ b) i = deliveredCount a i + deliveredCount b i := by
  simp [deliveredCount, List.filter_append]

theorem closedCount_append (a b : List Emis) :
    closedCount (a ++ b) = closedCount a + closedCount b := by
  simp [closedCount, List.filter_append]

theorem allocList_allocated (n : Nat) : allocList [Emis.allocated n] = [n] := rfl

theorem allocList_delivered (k : Nat) (m : Msg) :
    allocList [Emis.delivered k m] = [] := rfl

theorem allocList_droppedReply (k : Nat) : allocList [Emis.droppedReply k] = [] := rfl

theorem allocList_connClosed : allocList [Emis.connectionClosed] = [] := rfl

theorem deliveredCount_allocated (n i : Nat) :
    deliveredCount [Emis.allocated n] i = 0 := rfl

theorem deliveredCount_delivered (k i : Nat) (m : Msg) :
    deliveredCount [Emis.delivered k m] i = if k = i then 1 else 0 := by
  by_cases h : k = i <;> simp [deliveredCount, h]

theorem deliveredCount_droppedReply (k i : Nat) :
    deliveredCount [Emis.droppedReply k] i = 0 := rfl

theorem deliveredCount_connClosed (i : Nat) :
    deliveredCount [Emis.connectionClosed] i = 0 := rfl

theorem closedCount_allocated (n : Nat) : closedCount [Emis.allocated n] = 0 := rfl

theorem closedCount_delivered (k : Nat) (m : Msg) :
    closedCount [Emis.delivered k m] = 0 := rfl

theorem closedCount_droppedReply (k : Nat) :
    closedCount [Emis.droppedReply k] = 0 := rfl

theorem closedCount_connClosed : closedCount [Emis.connectionClosed] = 1 := rfl

theorem Inv_init : Inv initState [] := by
  refine ⟨Nat.le_refl 1, rfl, List.nodup_nil, ?_, ?_, rfl⟩
  · intro i hi
    cases hi
  · intro i
    simp [deliveredCount, allocList, initState]

theorem range1_concat {n : Nat} (h : 1 ≤ n) :
    List.range' 1 (n - 1) ++ [n] = List.range' 1 n := by
  have hh := @List.range'_concat 1 1 (n - 1)
  rw [show n - 1 + 1 = n by omega] at hh
  rw [hh]
  congr 2
  omega

theorem Inv_callMethod {s : CallState} {out : List Emis} (hinv : Inv s out) :
    Inv (callMethodState s) (out ++ [Emis.allocated s.nextSerial]) := by
  obtain ⟨h1, h2, h3, h4, h5, h6⟩ := hinv
  have hnin : s.nextSerial ∉ s.methodCalls := fun hm => by
    have := (h4 _ hm).2
    omega
  refine ⟨by show 1 ≤ s.nextSerial + 1; omega, ?_, ?_, ?_, ?_, ?_⟩
  · rw [allocList_append, allocList_allocated, h2]
    show List.range' 1 (s.nextSerial - 1) ++ [s.nextSerial]
        = List.range' 1 (s.nextSerial + 1 - 1)
    simp only [Nat.add_sub_cancel]
    exact range1_concat h1
  · show (s.methodCalls ++ [s.nextSerial]).Nodup
    refine List.Nodup.append h3 (List.nodup_singleton _) ?_
    intro x hx hx2
    simp only [List.mem_singleton] at hx2
    subst hx2
    exact hnin hx
  · intro i hi
    show 1 ≤ i ∧ i < s.nextSerial + 1
    simp only [callMethodState, List.mem_append, List.mem_singleton] at hi
    cases hi with
    | inl hi => have := h4 i hi; omega
    | inr hi => subst hi; omega
  · intro i
    show deliveredCount (out ++ [Emis.allocated s.nextSerial]) i
        + (if i ∈ s.methodCalls ++ [s.nextSerial] then 1 else 0)
        = (allocList (out ++ [Emis.allocated s.nextSerial])).count i
    rw [deliveredCount_append, deliveredCount_allocated,
        allocList_append, allocList_allocated, List.count_append]
    by_cases hni : i = s.nextSerial
    · subst hni
      have h5i := h5 s.nextSerial
      rw [if_neg hnin] at h5i
      have hc1 : List.count s.nextSerial [s.nextSerial] = 1 := by simp
      rw [if_pos (by simp), hc1]
      omega
    · have hmem : (i ∈ s.methodCalls ++ [s.nextSerial]) ↔ i ∈ s.methodCalls := by
        simp only [List.mem_append, List.mem_singleton]
        constructor
        · intro h
          cases h with
          | inl h => exact h
          | inr h => exact absurd h hni
        · exact Or.inl
      have hcnt : List.count i [s.nextSerial] = 0 :=
        List.count_eq_zero.mpr (by simp [hni])
      have h5i := h5 i
      simp only [hmem, hcnt]
      omega
  · show closedCount (out ++ [Emis.allocated s.nextSerial]) = if s.closed then 1 else 0
    rw [closedCount_append, closedCount_allocated]
    omega

theorem Inv_deliver {s : CallState} {out : List Emis} {k : Nat} (m : Msg)
    (hinv : Inv s out) (hmem : k ∈ s.methodCalls) :
    Inv { s with methodCalls := s.methodCalls.erase k }
        (out ++ [Emis.delivered k m]) := by
  obtain ⟨h1, h2, h3, h4, h5, h6⟩ := hinv
  refine ⟨h1, ?_, List.Nodup.erase k h3, ?_, ?_, ?_⟩
  · rw [allocList_append, allocList_delivered, List.append_nil]
    exact h2
  · intro i hi
    exact h4 i (List.erase_subset k s.methodCalls hi)
  · intro i
    show deliveredCount (out ++ [Emis.delivered k m]) i
        + (if i ∈ s.methodCalls.erase k then 1 else 0)
        = (allocList (out ++ [Emis.delivered k m])).count i
    rw [deliveredCount_append, deliveredCount_delivered,
        allocList_append, allocList_delivered, List.append_nil]
    by_cases hik : k = i
    · subst hik
      have hnm : k ∉ s.methodCalls.erase k := fun hm =>
        ((h3.mem_erase_iff).mp hm).1 rfl
      rw [if_pos rfl, if_neg hnm]
      have h5k := h5 k
      rw [if_pos hmem] at h5k
      omega
    · rw [if_neg hik]
      have hmem2 : (i ∈ s.methodCalls.erase k) ↔ i ∈ s.methodCalls := by
        rw [h3.mem_erase_iff]
        constructor
        · exact And.right
        · intro hmm
          exact ⟨fun he => hik he.symm, hmm⟩
      simp only [hmem2]
      have h5i := h5 i
      omega
  · show closedCount (out ++ [Emis.delivered k m]) = if s.closed then 1 else 0
    rw [closedCount_append, closedCount_delivered]
    omega

theorem Inv_dropped {s : CallState} {out : List Emis} (k : Nat)
    (hinv : Inv s out) : Inv s (out ++ [Emis.droppedReply k]) := by
  obtain ⟨h1, h2, h3, h4, h5, h6⟩ := hinv
  refine ⟨h1, ?_, h3, h4, ?_, ?_⟩
  · rw [allocList_append, allocList_droppedReply, List.append_nil]
    exact h2
  · intro i
    rw [deliveredCount_append, deliveredCount_droppedReply,
        allocList_append, allocList_droppedReply, List.append_nil]
    have h5i := h5 i
    omega
  · rw [closedCount_append, closedCount_droppedReply]
    omega

theorem Inv_close {s : CallState} {out : List Emis} (hinv : Inv s out)
    (hopen : s.closed = false) :
    Inv { s with closed := true } (out ++ [Emis.connectionClosed]) := by
  obtain ⟨h1, h2, h3, h4, h5, h6⟩ := hinv
  rw [hopen] at h6
  simp only [Bool.false_eq_true, if_false] at h6
  refine ⟨h1, ?_, h3, h4, ?_, ?_⟩
  · rw [allocList_append, allocList_connClosed, List.append_nil]
    exact h2
  · intro i
    show deliveredCount (out ++ [Emis.connectionClosed]) i
        + (if i ∈ s.methodCalls then 1 else 0)
        = (allocList (out ++ [Emis.connectionClosed])).count i
    rw [deliveredCount_append, deliveredCount_connClosed,
        allocList_append, allocList_connClosed, List.append_nil]
    have h5i := h5 i
    omega
  · show closedCount (out ++ [Emis.connectionClosed]) = if true = true then 1 else 0
    rw [closedCount_append, closedCount_connClosed, if_pos rfl]
    omega

theorem stepFn_callMethod (s : CallState) :
    stepFn s Ev.callMethod = some (callMethodState s, [Emis.allocated s.nextSerial]) := rfl

theorem stepFn_timerFire_mem {s : CallState} {i : Nat} (h : i ∈ s.methodCalls) :
    stepFn s (Ev.timerFire i)
      = some ({ s with methodCalls := s.methodCalls.erase i },
              [Emis.delivered i (timeoutReply i)]) := by
  simp only [stepFn, if_pos h]

theorem stepFn_timerFire_notMem {s : CallState} {i : Nat} (h : i ∉ s.methodCalls) :
    stepFn s (Ev.timerFire i) = none := by
  simp only [stepFn, if_neg h]

theorem stepFn_reply_deliver {s : CallState} {m : Msg} {k : Nat}
    (hresp : isResponse m = true) (hk : msgIdNat m = some k)
    (hmem : k ∈ s.methodCalls) :
    stepFn s (Ev.replyArrive m)
      = some ({ s with methodCalls := s.methodCalls.erase k },
              [Emis.delivered k m]) := by
  simp only [stepFn, hresp, hk, if_pos hmem, if_true]

theorem stepFn_reply_dropped {s : CallState} {m : Msg} {k : Nat}
    (hresp : isResponse m = true) (hk : msgIdNat m = some k)
    (hmem : k ∉ s.methodCalls) :
    stepFn s (Ev.replyArrive m) = some (s, [Emis.droppedReply k]) := by
  simp only [stepFn, hresp, hk, if_neg hmem, if_true]

theorem stepFn_reply_noid {s : CallState} {m : Msg}
    (hresp : isResponse m = true) (hk : msgIdNat m = none) :
    stepFn s (Ev.replyArrive m) = none := by
  simp only [stepFn, hresp, hk, if_true]

theorem stepFn_reply_notResponse {s : CallState} {m : Msg}
    (hresp : isResponse m = false) :
    stepFn s (Ev.replyArrive m) = none := by
  simp only [stepFn, hresp, Bool.false_eq_true, if_false]

theorem stepFn_close_closed {s : CallState} (h : s.closed = true) :
    stepFn s Ev.close = some (s, []) := by
  simp only [stepFn, h, if_true]

theorem stepFn_close_open {s : CallState} (h : s.closed = false) :
    stepFn s Ev.close = some ({ s with closed := true }, [Emis.connectionClosed]) := by
  simp only [stepFn, h, Bool.false_eq_true, if_false]

theorem runEvents_nil (s : CallState) : runEvents s [] = some (s, []) := rfl

theorem runEvents_cons_none {s : CallState} {e : Ev} {rest : List Ev}
    (h : stepFn s e = none) : runEvents s (e :: rest) = none := by
  simp only [runEvents, h]

theorem runEvents_cons_stop {s s1 : CallState} {es1 : List Emis} {e : Ev}
    {rest : List Ev} (h1 : stepFn s e = some (s1, es1))
    (h2 : runEvents s1 rest = none) : runEvents s (e :: rest) = none := by
  simp only [runEvents, h1, h2]

theorem runEvents_cons_some {s s1 s2 : CallState} {es1 es2 : List Emis} {e : Ev}
    {rest : List Ev} (h1 : stepFn s e = some (s1, es1))
    (h2 : runEvents s1 rest = some (s2, es2)) :
    runEvents s (e :: rest) = some (s2, es1 ++ es2) := by
  simp only [runEvents, h1, h2]

theorem Inv_step {s : CallState} {out : List Emis} {e : Ev} {s' : CallState}
    {es : List Emis} (hinv : Inv s out) (hstep : stepFn s e = some (s', es)) :
    Inv s' (out ++ es) := by
  cases e with
  | callMethod =>
      rw [stepFn_callMethod, Option.some.injEq, Prod.mk.injEq] at hstep
      obtain ⟨hs', hes⟩ := hstep
      subst hs'
      subst hes
      exact Inv_callMethod hinv
  | replyArrive m =>
      cases hresp : isResponse m with
      | false =>
          rw [stepFn_reply_notResponse hresp] at hstep
          exact Option.noConfusion hstep
      | true =>
          cases hk : msgIdNat m with
          | none =>
              rw [stepFn_reply_noid hresp hk] at hstep
              exact Option.noConfusion hstep
          | some k =>
              by_cases hmem : k ∈ s.methodCalls
              · rw [stepFn_reply_deliver hresp hk hmem, Option.some.injEq,
                    Prod.mk.injEq] at hstep
                obtain ⟨hs', hes⟩ := hstep
                subst hs'
                subst hes
                exact Inv_deliver m hinv hmem
              · rw [stepFn_reply_dropped hresp hk hmem, Option.some.injEq,
                    Prod.mk.injEq] at hstep
                obtain ⟨hs', hes⟩ := hstep
                subst hs'
                subst hes
                exact Inv_dropped k hinv
  | timerFire i =>
      by_cases hmem : i ∈ s.methodCalls
      · rw [stepFn_timerFire_mem hmem, Option.some.injEq, Prod.mk.injEq] at hstep
        obtain ⟨hs', hes⟩ := hstep
        subst hs'
        subst hes
        exact Inv_deliver _ hinv hmem
      · rw [stepFn_timerFire_notMem hmem] at hstep
        exact Option.noConfusion hstep
  | close =>
      cases hcl : s.closed with
      | true =>
          rw [stepFn_close_closed hcl, Option.some.injEq, Prod.mk.injEq] at hstep
          obtain ⟨hs', hes⟩ := hstep
          subst hs'
          subst hes
          rw [List.append_nil]
          exact hinv
      | false =>
          rw [stepFn_close_open hcl, Option.some.injEq, Prod.mk.injEq] at hstep
          obtain ⟨hs', hes⟩ := hstep
          subst hs'
          subst hes
          exact Inv_close hinv hcl

theorem Inv_run {evs : List Ev} :
    ∀ {s : CallState} {out : List Emis} {s' : CallState} {out2 : List Emis},
      Inv s out → runEvents s evs = some (s', out2) → Inv s' (out ++ out2) := by
  induction evs with
  | nil =>
      intro s out s' out2 hinv hrun
      rw [runEvents_nil, Option.some.injEq, Prod.mk.injEq] at hrun
      obtain ⟨hs', hout⟩ := hrun
      subst hs'
      subst hout
      rw [List.append_nil]
      exact hinv
  | cons e rest ih =>
      intro s out s' out2 hinv hrun
      cases hst : stepFn s e with
      | none =>
          rw [runEvents_cons_none hst] at hrun
          exact Option.noConfusion hrun
      | some pr =>
          obtain ⟨s1, es1⟩ := pr
          cases hrr : runEvents s1 rest with
          | none =>
              rw [runEvents_cons_stop hst hrr] at hrun
              exact Option.noConfusion hrun
          | some pr2 =>
              obtain ⟨s2, es2⟩ := pr2
              rw [runEvents_cons_some hst hrr, Option.some.injEq, Prod.mk.injEq] at hrun
              obtain ⟨hs2, hout⟩ := hrun
              subst hs2
              subst hout
              rw [← List.append_assoc]
              exact ih (Inv_step hinv hst) hrr

theorem Inv_of_run {evs : List Ev} {s : CallState} {out : List Emis}
    (h : runEvents initState evs = some (s, out)) : Inv s out := by
  have := Inv_run Inv_init h
  rwa [List.nil_append] at this

theorem stepFn_closed_mono {s s' : CallState} {e : Ev} {es : List Emis}
    (hstep : stepFn s e = some (s', es)) (hc : s.closed = true) :
    s'.closed = true := by
  cases e with
  | callMethod =>
      rw [stepFn_callMethod, Option.some.injEq, Prod.mk.injEq] at hstep
      obtain ⟨hs', _⟩ := hstep
      subst hs'
      exact hc
  | replyArrive m =>
      cases hresp : isResponse m with
      | false =>
          rw [stepFn_reply_notResponse hresp] at hstep
          exact Option.noConfusion hstep
      | true =>
          cases hk : msgIdNat m with
          | none =>
              rw [stepFn_reply_noid hresp hk] at hstep
              exact Option.noConfusion hstep
          | some k =>
              by_cases hmem : k ∈ s.methodCalls
              · rw [stepFn_reply_deliver hresp hk hmem, Option.some.injEq,
                    Prod.mk.injEq] at hstep
                obtain ⟨hs', _⟩ := hstep
                subst hs'
                exact hc
              · rw [stepFn_reply_dropped hresp hk hmem, Option.some.injEq,
                    Prod.mk.injEq] at hstep
                obtain ⟨hs', _⟩ := hstep
                subst hs'
                exact hc
  | timerFire i =>
      by_cases hmem : i ∈ s.methodCalls
      · rw [stepFn_timerFire_mem hmem, Option.some.injEq, Prod.mk.injEq] at hstep
        obtain ⟨hs', _⟩ := hstep
        subst hs'
        exact hc
      · rw [stepFn_timerFire_notMem hmem] at hstep
        exact Option.noConfusion hstep
  | close =>
      rw [stepFn_close_closed hc, Option.some.injEq, Prod.mk.injEq] at hstep
      obtain ⟨hs', _⟩ := hstep
      subst hs'
      exact hc

theorem stepFn_close_sets {s s' : CallState} {es : List Emis}
    (hstep : stepFn s Ev.close = some (s', es)) : s'.closed = true := by
  cases hcl : s.closed with
  | true =>
      rw [stepFn_close_closed hcl, Option.some.injEq, Prod.mk.injEq] at hstep
      obtain ⟨hs', _⟩ := hstep
      subst hs'
      exact hcl
  | false =>
      rw [stepFn_close_open hcl, Option.some.injEq, Prod.mk.injEq] at hstep
      obtain ⟨hs', _⟩ := hstep
      subst hs'
      rfl

theorem runEvents_closed_mono {evs : List Ev} :
    ∀ {s s' : CallState} {out : List Emis},
      runEvents s evs = some (s', out) → s.closed = true → s'.closed = true := by
  induction evs with
  | nil =>
      intro s s' out hrun hc
      rw [runEvents_nil, Option.some.injEq, Prod.mk.injEq] at hrun
      obtain ⟨hs', _⟩ := hrun
      subst hs'
      exact hc
  | cons e rest ih =>
      intro s s' out hrun hc
      cases hst : stepFn s e with
      | none =>
          rw [runEvents_cons_none hst] at hrun
          exact Option.noConfusion hrun
      | some pr =>
          obtain ⟨s1, es1⟩ := pr
          cases hrr : runEvents s1 rest with
          | none =>
              rw [runEvents_cons_stop hst hrr] at hrun
              exact Option.noConfusion hrun
          | some pr2 =>
              obtain ⟨s2, es2⟩ := pr2
              rw [runEvents_cons_some hst hrr, Option.some.injEq, Prod.mk.injEq] at hrun
              obtain ⟨hs2, _⟩ := hrun
              subst hs2
              exact ih hrr (stepFn_closed_mono hst hc)

theorem runEvents_close_mem {evs : List Ev} :
    ∀ {s s' : CallState} {out : List Emis},
      Ev.close ∈ evs → runEvents s evs = some (s', out) → s'.closed = true := by
  induction evs with
  | nil => intro s s' out hmem; cases hmem
  | cons e rest ih =>
      intro s s' out hmem hrun
      cases hst : stepFn s e with
      | none =>
          rw [runEvents_cons_none hst] at hrun
          exact Option.noConfusion hrun
      | some pr =>
          obtain ⟨s1, es1⟩ := pr
          cases hrr : runEvents s1 rest with
          | none =>
              rw [runEvents_cons_stop hst hrr] at hrun
              exact Option.noConfusion hrun
          | some pr2 =>
              obtain ⟨s2, es2⟩ := pr2
              rw [runEvents_cons_some hst hrr, Option.some.injEq, Prod.mk.injEq] at hrun
              obtain ⟨hs2, _⟩ := hrun
              subst hs2
              rcases List.mem_cons.mp hmem with he | hmem2
              · rw [← he] at hst
                exact runEvents_closed_mono hrr (stepFn_close_sets hst)
              · exact ih hmem2 hrr

/-- C1: every `call_method` that registers a reply callback (the
synchronous variant always registers one internally) produces exactly one
delivery to that callback.  Along any realizable event trace: an allocated
id is either delivered to exactly once, or still outstanding with zero
deliveries; for every still-outstanding id the timeout-timer step remains
enabled — including after `close`, which touches neither the call table
nor the timers (so a blocked caller is unblocked by the synthesized
timeout error) — and it delivers the synthesized error; in a drained trace
(empty call table) every allocated id was delivered to exactly once. -/
theorem C1_exactly_one_delivery {evs : List Ev} {s : CallState} {out : List Emis}
    (h : runEvents initState evs = some (s, out)) :
    (∀ i ∈ allocList out,
        deliveredCount out i = 1 ∨ (i ∈ s.methodCalls ∧ deliveredCount out i = 0))
    ∧ (∀ i ∈ s.methodCalls,
        stepFn s (Ev.timerFire i)
          = some ({ s with methodCalls := s.methodCalls.erase i },
                  [Emis.delivered i (timeoutReply i)]))
    ∧ (s.methodCalls = [] → ∀ i ∈ allocList out, deliveredCount out i = 1) := by
  obtain ⟨h1, h2, h3, h4, h5, h6⟩ := Inv_of_run h
  have key : ∀ i ∈ allocList out,
      deliveredCount out i = 1 ∨ (i ∈ s.methodCalls ∧ deliveredCount out i = 0) := by
    intro i hi
    have hnd : (allocList out).Nodup := by
      rw [h2]
      exact List.nodup_range' 1 _
    have hcnt := List.count_eq_one_of_mem hnd hi
    have h5i := h5 i
    by_cases hm : i ∈ s.methodCalls
    · right
      rw [if_pos hm] at h5i
      exact ⟨hm, by omega⟩
    · left
      rw [if_neg hm] at h5i
      omega
  refine ⟨key, ?_, ?_⟩
  · intro i hi
    exact stepFn_timerFire_mem hi
  · intro hempty i hi
    rcases key i hi with hone | ⟨hm, _⟩
    · exact hone
    · rw [hempty] at hm
      cases hm

/-- Witness for C1: the trace call, close, timer-fire — the entry
outstanding at close time still receives its single timeout delivery. -/
theorem C1_exactly_one_delivery_witness :
    deliveredCount [Emis.allocated 1, Emis.connectionClosed,
      Emis.delivered 1 (timeoutReply 1)] 1 = 1 := by
  have h := @C1_exactly_one_delivery
    [Ev.callMethod, Ev.close, Ev.timerFire 1]
    { nextSerial := 2, methodCalls := [], closed := true }
    [Emis.allocated 1, Emis.connectionClosed,
      Emis.delivered 1 (timeoutReply 1)] rfl
  exact h.2.2 rfl 1 (by decide)

/-- C7: when the timeout timer of an outstanding call fires, the
registered callback is delivered the synthesized response whose error
object is `{code: "Timeout", message: "Method call timed out", data:
null}` and the entry leaves the call table; a reply arriving for an id
with no outstanding entry (in particular a late reply after timeout) is
dropped silently — the state, including the `closed` flag, is unchanged
and no close happens. -/
theorem C7_timeout_and_late_reply (s t : CallState) (i k : Nat) (m : Msg)
    (hi : i ∈ s.methodCalls) (hn : s.methodCalls.Nodup)
    (hk : k ∉ t.methodCalls) (hresp : isResponse m = true)
    (hkid : msgIdNat m = some k) :
    stepFn s (Ev.timerFire i)
      = some ({ s with methodCalls := s.methodCalls.erase i },
              [Emis.delivered i (timeoutReply i)])
    ∧ alookup (timeoutReply i) "error"
        = some (JVal.obj [("code", JVal.str "Timeout"),
            ("message", JVal.str "Method call timed out"), ("data", JVal.null)])
    ∧ i ∉ s.methodCalls.erase i
    ∧ stepFn t (Ev.replyArrive m) = some (t, [Emis.droppedReply k]) := by
  refine ⟨stepFn_timerFire_mem hi, rfl, ?_, stepFn_reply_dropped hresp hkid hk⟩
  intro hmm
  exact ((hn.mem_erase_iff).mp hmm).1 rfl

/-- Witness for C7 at a concrete outstanding call and a concrete late
reply. -/
theorem C7_timeout_and_late_reply_witness :
    stepFn { nextSerial := 2, methodCalls := [1], closed := false } (Ev.timerFire 1)
      = some ({ nextSerial := 2, methodCalls := ([1] : List Nat).erase 1,
                closed := false },
              [Emis.delivered 1 (timeoutReply 1)])
    ∧ alookup (timeoutReply 1) "error"
        = some (JVal.obj [("code", JVal.str "Timeout"),
            ("message", JVal.str "Method call timed out"), ("data", JVal.null)])
    ∧ 1 ∉ ([1] : List Nat).erase 1
    ∧ stepFn { nextSerial := 1, methodCalls := [], closed := false }
        (Ev.replyArrive [("jsonrpc", JVal.str "2.0"), ("id", JVal.num 5),
          ("result", JVal.null)])
      = some ({ nextSerial := 1, methodCalls := [], closed := false },
              [Emis.droppedReply 5]) := by
  exact C7_timeout_and_late_reply
    { nextSerial := 2, methodCalls := [1], closed := false }
    { nextSerial := 1, methodCalls := [], closed := false } 1 5
    [("jsonrpc", JVal.str "2.0"), ("id", JVal.num 5), ("result", JVal.null)]
    (by decide) (by decide) (by decide) rfl rfl

/-- C8: within one connection the ids allocated by successive
`call_method` invocations are exactly `1, 2, 3, …` in order — strictly
monotonically increasing from 1, never reused — and the outstanding
entries of the call table never share an id. -/
theorem C8_serials_monotone {evs : List Ev} {s : CallState} {out : List Emis}
    (h : runEvents initState evs = some (s, out)) :
    allocList out = List.range' 1 (allocList out).length
    ∧ (allocList out).Nodup
    ∧ List.Pairwise (· < ·) (allocList out)
    ∧ s.methodCalls.Nodup := by
  obtain ⟨h1, h2, h3, h4, h5, h6⟩ := Inv_of_run h
  refine ⟨?_, ?_, ?_, h3⟩
  · rw [h2, List.length_range']
  · rw [h2]
    exact List.nodup_range' 1 _
  · rw [h2]
    exact List.pairwise_lt_range' 1 _

/-- Witness for C8 on the two-call trace. -/
theorem C8_serials_monotone_witness :
    allocList [Emis.allocated 1, Emis.allocated 2]
        = List.range' 1 (allocList [Emis.allocated 1, Emis.allocated 2]).length
    ∧ (allocList [Emis.allocated 1, Emis.allocated 2]).Nodup
    ∧ List.Pairwise (· < ·) (allocList [Emis.allocated 1, Emis.allocated 2])
    ∧ ([1, 2] : List Nat).Nodup := by
  exact @C8_serials_monotone
    [Ev.callMethod, Ev.callMethod]
    { nextSerial := 3, methodCalls := [1, 2], closed := false }
    [Emis.allocated 1, Emis.allocated 2] rfl

/-- C9: `close()` is idempotent — on an already-closed connection it
leaves the state unchanged and emits nothing — and over any realizable
trace the `ConnectionClosed` callback fires at most once, and exactly
once as soon as `close` was called at all. -/
theorem C9_close_idempotent (s : CallState) {evs : List Ev} {s' : CallState}
    {out : List Emis} (hs : s.closed = true)
    (h : runEvents initState evs = some (s', out)) :
    stepFn s Ev.close = some (s, [])
    ∧ closedCount out ≤ 1
    ∧ (Ev.close ∈ evs → closedCount out = 1) := by
  obtain ⟨_, _, _, _, _, h6⟩ := Inv_of_run h
  refine ⟨stepFn_close_closed hs, ?_, ?_⟩
  · rw [h6]
    split
    · omega
    · omega
  · intro hmem
    have hcl := runEvents_close_mem hmem h
    rw [h6, hcl]
    simp

/-- Witness for C9 on a double-close trace. -/
theorem C9_close_idempotent_witness :
    stepFn { nextSerial := 1, methodCalls := [], closed := true } Ev.close
      = some ({ nextSerial := 1, methodCalls := [], closed := true }, [])
    ∧ closedCount [Emis.connectionClosed] ≤ 1
    ∧ (Ev.close ∈ [Ev.close, Ev.close] → closedCount [Emis.connectionClosed] = 1) := by
  exact @C9_close_idempotent
    { nextSerial := 1, methodCalls := [], closed := true }
    [Ev.close, Ev.close]
    { nextSerial := 1, methodCalls := [], closed := true }
    [Emis.connectionClosed] rfl rfl

/-! ### Flow control lemmas -/

theorem flowRun_nil (s : FlowState) : flowRun s [] = some s := rfl

theorem flowRun_cons_none {s : FlowState} {e : FlowEv} {rest : List FlowEv}
    (h : flowStep s e = none) : flowRun s (e :: rest) = none := by
  simp only [flowRun, h]

theorem flowRun_cons_some {s s1 : FlowState} {e : FlowEv} {rest : List FlowEv}
    (h : flowStep s e = some s1) : flowRun s (e :: rest) = flowRun s1 rest := by
  simp only [flowRun, h]

/-- The flow invariant: while the connection is open, a disabled read
watch implies the queue is at least at the limit, and an enabled one
implies it is at most at the limit. -/
def FlowInv (s : FlowState) : Prop :=
  s.closed = false
  ∧ (s.reading = false → maxIncomingMessages ≤ s.incoming)
  ∧ (s.reading = true → s.incoming ≤ maxIncomingMessages)

theorem flowStep_inv {s s' : FlowState} {e : FlowEv}
    (hstep : flowStep s e = some s') (hinv : FlowInv s) : FlowInv s' := by
  obtain ⟨hc, hoff, hon⟩ := hinv
  cases e with
  | readPass k =>
      simp only [flowStep] at hstep
      split at hstep
      · rename_i hcond
        split at hstep
        · rename_i hgt
          cases hstep
          refine ⟨hc, ?_, ?_⟩
          · intro _
            show maxIncomingMessages ≤ s.incoming + k
            omega
          · intro hh
            exact Bool.noConfusion hh
        · rename_i hle
          cases hstep
          refine ⟨hc, ?_, ?_⟩
          · intro hh
            rw [hcond.1] at hh
            exact Bool.noConfusion hh
          · intro _
            show s.incoming + k ≤ maxIncomingMessages
            omega
      · exact Option.noConfusion hstep
  | popIncoming =>
      simp only [flowStep] at hstep
      split at hstep
      · rename_i hpos
        split at hstep
        · rename_i hre
          cases hstep
          refine ⟨hc, ?_, ?_⟩
          · intro hh
            exact Bool.noConfusion hh
          · intro _
            show s.incoming - 1 ≤ maxIncomingMessages
            omega
        · rename_i hnre
          cases hstep
          refine ⟨hc, ?_, ?_⟩
          · intro hh
            show maxIncomingMessages ≤ s.incoming - 1
            have : ¬(s.reading = false ∧ s.closed = false
                ∧ s.incoming - 1 < maxIncomingMessages) := hnre
            have hro : s.reading = false := hh
            have : ¬(s.incoming - 1 < maxIncomingMessages) := fun hlt =>
              this ⟨hro, hc, hlt⟩
            omega
          · intro hh
            have := hon hh
            show s.incoming - 1 ≤ maxIncomingMessages
            omega
      · exact Option.noConfusion hstep

theorem flowRun_inv {evs : List FlowEv} :
    ∀ {s s' : FlowState}, flowRun s evs = some s' → FlowInv s → FlowInv s' := by
  induction evs with
  | nil =>
      intro s s' hrun hinv
      rw [flowRun_nil, Option.some.injEq] at hrun
      subst hrun
      exact hinv
  | cons e rest ih =>
      intro s s' hrun hinv
      cases hst : flowStep s e with
      | none =>
          rw [flowRun_cons_none hst] at hrun
          exact Option.noConfusion hrun
      | some s1 =>
          rw [flowRun_cons_some hst] at hrun
          exact ih hrun (flowStep_inv hst hinv)

/-- C6 counterexample: one read-pump pass that frames 101 messages
throttles the watch (101 > 100); one `pop_incoming` leaves the queue at
exactly 100, which does not exceed `max_incoming_messages`, yet the watch
stays disabled because re-enabling requires the queue to drop strictly
below the limit.  So on this reachable open state the claimed "disabled
iff size > max" fails. -/
theorem C6_throttle_iff_cex :
    flowRun flowInit [FlowEv.readPass 101, FlowEv.popIncoming]
      = some { incoming := 100, reading := false, closed := false }
    ∧ ¬(maxIncomingMessages
        < ({ incoming := 100, reading := false, closed := false } : FlowState).incoming)
    ∧ ({ incoming := 100, reading := false, closed := false } : FlowState).reading = false
    ∧ ({ incoming := 100, reading := false, closed := false } : FlowState).closed = false := by
  refine ⟨rfl, by decide, rfl, rfl⟩

/-- C6 amended: while the connection is open, the read watch is disabled
only when the queue size is at least `max_incoming_messages` and enabled
only when it is at most `max_incoming_messages`; at exactly the limit
either state can occur (hysteresis: the pump disables when a pass leaves
the queue strictly above the limit, `pop_incoming` re-enables when a pop
takes it strictly below). -/
theorem C6_throttle_hysteresis {evs : List FlowEv} {s : FlowState}
    (h : flowRun flowInit evs = some s) :
    s.closed = false
    ∧ (s.reading = false → maxIncomingMessages ≤ s.incoming)
    ∧ (s.reading = true → s.incoming ≤ maxIncomingMessages) := by
  have hinv : FlowInv flowInit := by
    refine ⟨rfl, ?_, ?_⟩
    · intro hh
      exact Bool.noConfusion hh
    · intro _
      show 0 ≤ maxIncomingMessages
      omega
  exact flowRun_inv h hinv

/-- Witness for the amended C6 on a concrete short trace. -/
theorem C6_throttle_hysteresis_witness :
    ({ incoming := 5, reading := true, closed := false } : FlowState).closed = false
    ∧ (({ incoming := 5, reading := true, closed := false } : FlowState).reading = false →
        maxIncomingMessages
          ≤ ({ incoming := 5, reading := true, closed := false } : FlowState).incoming)
    ∧ (({ incoming := 5, reading := true, closed := false } : FlowState).reading = true →
        ({ incoming := 5, reading := true, closed := false } : FlowState).incoming
          ≤ maxIncomingMessages) :=
  @C6_throttle_hysteresis [FlowEv.readPass 5]
    { incoming := 5, reading := true, closed := false } rfl

/-! ### Envelope classification -/

/-- C5 counterexample: the framed message `{"jsonrpc": "2.0"}` decodes to
a JSON object with `jsonrpc = "2.0"` but matches none of the three
envelope shapes (no `method`, no `result`/`error`), yet the pipeline
drops it silently instead of closing the connection: `pop_incoming`'s
validation passes it, `dispatch` sees no `result`/`error`, and
`MessageBusHandler.dispatch` matches neither of its two branches. -/
theorem C5_invalid_shape_not_closed_cex :
    classifyIncoming (some [("jsonrpc", JVal.str "2.0")])
      = InboundOutcome.droppedNoDispatch
    ∧ InboundOutcome.droppedNoDispatch ≠ InboundOutcome.closeConn :=
  ⟨rfl, by decide⟩

/-- C5 amended: the connection closes exactly on decode failure or on a
missing, non-string, or non-"2.0" `jsonrpc` field; a decoded "2.0" object
matching none of the three envelope shapes is silently ignored (not
fatal), and one carrying `result`/`error` without `id` raises an uncaught
KeyError in the response branch rather than closing. -/
theorem C5_envelope_close_amended (m : Msg) :
    classifyIncoming none = InboundOutcome.closeConn
    ∧ (∀ v, alookup m "jsonrpc" = some (JVal.str v) → v ≠ "2.0" →
        classifyIncoming (some m) = InboundOutcome.closeConn)
    ∧ (alookup m "jsonrpc" = none →
        classifyIncoming (some m) = InboundOutcome.closeConn)
    ∧ (∀ n : Int, alookup m "jsonrpc" = some (JVal.num n) →
        classifyIncoming (some m) = InboundOutcome.closeConn)
    ∧ (alookup m "jsonrpc" = some (JVal.str "2.0") →
        (alookup m "result").isSome = false → (alookup m "error").isSome = false →
        (alookup m "method").isSome = false →
        classifyIncoming (some m) = InboundOutcome.droppedNoDispatch
          ∧ InboundOutcome.droppedNoDispatch ≠ InboundOutcome.closeConn)
    ∧ (alookup m "jsonrpc" = some (JVal.str "2.0") →
        ((alookup m "result").isSome = true ∨ (alookup m "error").isSome = true) →
        (alookup m "id").isSome = false →
        classifyIncoming (some m) = InboundOutcome.responseKeyError
          ∧ InboundOutcome.responseKeyError ≠ InboundOutcome.closeConn) := by
  refine ⟨rfl, ?_, ?_, ?_, ?_, ?_⟩
  · intro v hv hne
    simp only [classifyIncoming, hv]
    rw [if_neg hne]
  · intro hv
    simp [classifyIncoming, hv]
  · intro n hv
    simp [classifyIncoming, hv]
  · intro hv hr he hm
    refine ⟨?_, by decide⟩
    simp [classifyIncoming, hv, hr, he, hm]
  · intro hv hre hid
    refine ⟨?_, by decide⟩
    rcases hre with hr | he
    · simp [classifyIncoming, hv, hr, hid]
    · simp [classifyIncoming, hv, he, hid]

/-- Witness for the amended C5 at concrete messages. -/
theorem C5_envelope_close_amended_witness :
    classifyIncoming (some [("jsonrpc", JVal.str "1.0")]) = InboundOutcome.closeConn
    ∧ (classifyIncoming (some [("jsonrpc", JVal.str "2.0"), ("id", JVal.num 7)])
        = InboundOutcome.droppedNoDispatch
      ∧ InboundOutcome.droppedNoDispatch ≠ InboundOutcome.closeConn) :=
  ⟨(C5_envelope_close_amended [("jsonrpc", JVal.str "1.0")]).2.1 "1.0" rfl
      (by decide),
   (C5_envelope_close_amended
      [("jsonrpc", JVal.str "2.0"), ("id", JVal.num 7)]).2.2.2.2.1
      rfl rfl rfl rfl⟩

/-! ### Handler registry dispatch -/

/-- C3: for an inbound request routed through the handler registry — an
unknown method name yields a `NotFound` error reply; a known method
failing the arity check (argument count below the required parameters
without defaults or above the total parameters, no upper bound when
variadic, both counts excluding `self`) yields an `InvalidCall` error
reply without invoking the handler; a handler raising a structured error
yields that error as the reply; any other exception yields an
`UncaughtException` error reply; and a normal return with `response_sent`
still false yields a result reply carrying the returned value. -/
theorem C3_dispatch_method_call_cases (methods : List (String × Handler))
    (m : Msg) (idv : JVal) (name : String) (args : List JVal)
    (hid : alookup m "id" = some idv)
    (hm : alookup m "method" = some (JVal.str name))
    (hp : getParams m = args) :
    (alookup methods name = none →
      dispatch_method_call methods m
        = (some (errorReply idv ⟨"NotFound", "No such method call", JVal.null⟩),
           false))
    ∧ (∀ hdl, alookup methods name = some hdl →
        check_callable hdl.spec args.length = false →
        dispatch_method_call methods m
          = (some (errorReply idv
              ⟨"InvalidCall", "Wrong number of arguments", JVal.null⟩), false))
    ∧ (∀ hdl e, alookup methods name = some hdl →
        check_callable hdl.spec args.length = true →
        hdl.run args = HRes.structErr e →
        dispatch_method_call methods m = (some (errorReply idv e), true))
    ∧ (∀ hdl, alookup methods name = some hdl →
        check_callable hdl.spec args.length = true →
        hdl.run args = HRes.uncaught →
        dispatch_method_call methods m
          = (some (errorReply idv ⟨"UncaughtException", "", JVal.null⟩), true))
    ∧ (∀ hdl v, alookup methods name = some hdl →
        check_callable hdl.spec args.length = true →
        hdl.run args = HRes.ret v false →
        dispatch_method_call methods m = (some (resultReply idv v), true))
    ∧ (∀ sp : ArgSpec, 1 ≤ sp.nargs → ∀ ngiven : Nat,
        (check_callable sp ngiven = true ↔
          ((sp.nargs : Int) - (sp.ndefaults : Int) - 1 ≤ (ngiven : Int)
            ∧ (sp.varargs = true ∨ (ngiven : Int) ≤ (sp.nargs : Int) - 1)))) := by
  refine ⟨?_, ?_, ?_, ?_, ?_, ?_⟩
  · intro hnone
    simp [dispatch_method_call, hm, hid, hnone]
  · intro hdl hsome hcc
    simp [dispatch_method_call, hm, hid, hsome, hp, hcc]
  · intro hdl e hsome hcc hrun
    simp [dispatch_method_call, hm, hid, hsome, hp, hcc, hrun]
  · intro hdl hsome hcc hrun
    simp [dispatch_method_call, hm, hid, hsome, hp, hcc, hrun]
  · intro hdl v hsome hcc hrun
    simp [dispatch_method_call, hm, hid, hsome, hp, hcc, hrun]
  · intro sp hsp ngiven
    obtain ⟨na, nd, va⟩ := sp
    have hsp' : 1 ≤ na := hsp
    cases va with
    | true =>
        simp only [check_callable, Bool.and_eq_true, decide_eq_true_iff, if_true,
          Bool.and_true, eq_self_iff_true, true_or, and_true]
    | false =>
        have hne : ((na : Int)) ≠ 0 := by
          simp only [ne_eq, Nat.cast_eq_zero]
          omega
        simp only [check_callable, Bool.and_eq_true, decide_eq_true_iff,
          Bool.false_eq_true, if_false, if_neg hne, false_or]

/-- Witness for C3: an `echo` handler returning its single argument. -/
theorem C3_dispatch_method_call_cases_witness :
    dispatch_method_call
      [("echo", { spec := { nargs := 2, ndefaults := 0, varargs := false },
                  run := fun args =>
                    match args with
                    | [v] => HRes.ret v false
                    | _ => HRes.uncaught })]
      [("jsonrpc", JVal.str "2.0"), ("id", JVal.num 1),
       ("method", JVal.str "echo"), ("params", JVal.arr [JVal.str "hi"])]
      = (some (resultReply (JVal.num 1) (JVal.str "hi")), true) := by
  have h := C3_dispatch_method_call_cases
    [("echo", { spec := { nargs := 2, ndefaults := 0, varargs := false },
                run := fun args =>
                  match args with
                  | [v] => HRes.ret v false
                  | _ => HRes.uncaught })]
    [("jsonrpc", JVal.str "2.0"), ("id", JVal.num 1),
     ("method", JVal.str "echo"), ("params", JVal.arr [JVal.str "hi"])]
    (JVal.num 1) "echo" [JVal.str "hi"] rfl rfl rfl
  exact h.2.2.2.2.1 _ (JVal.str "hi") rfl rfl rfl

/-! ### Server fan-out -/

theorem serverFanout_nil (fm : String → String → Bool) (client : Option String) :
    serverFanout fm client [] = ([], []) := rfl

theorem serverFanout_cons_sel {fm : String → String → Bool} {client : Option String}
    {peer : String} {cs : CallState} {rest : List (String × CallState)}
    (h : connSelected fm client peer = true) :
    serverFanout fm client ((peer, cs) :: rest)
      = ((peer, callMethodState cs) :: (serverFanout fm client rest).1,
         (peer, cs.nextSerial) :: (serverFanout fm client rest).2) := by
  simp only [serverFanout, h, if_true]

theorem serverFanout_cons_unsel {fm : String → String → Bool} {client : Option String}
    {peer : String} {cs : CallState} {rest : List (String × CallState)}
    (h : connSelected fm client peer = false) :
    serverFanout fm client ((peer, cs) :: rest)
      = ((peer, cs) :: (serverFanout fm client rest).1,
         (serverFanout fm client rest).2) := by
  simp only [serverFanout, h, Bool.false_eq_true, if_false]

theorem serverFanout_spec (fm : String → String → Bool) (client : Option String)
    (conns : List (String × CallState)) :
    serverFanout fm client conns
      = (conns.map (fun pc =>
            if connSelected fm client pc.1 then (pc.1, callMethodState pc.2) else pc),
         (conns.filter fun pc => connSelected fm client pc.1).map
            (fun pc => (pc.1, pc.2.nextSerial))) := by
  induction conns with
  | nil => rfl
  | cons pc rest ih =>
      obtain ⟨peer, cs⟩ := pc
      cases hsel : connSelected fm client peer with
      | true =>
          rw [serverFanout_cons_sel hsel, ih]
          simp [List.filter_cons, hsel]
      | false =>
          rw [serverFanout_cons_unsel hsel, ih]
          simp [List.filter_cons, hsel]

/-- C4: the server fan-out `call_method` registers the one shared reply
callback on exactly the matching connections, each under that
connection's own freshly allocated id; the caller blocks on a single
rendezvous, and exactly one reply is returned: the first to arrive —
a success returns its `result`, an `error` reply raises a structured
error built from its `code` and `data` — while every later reply on the
same logical call is absorbed by the one-shot rendezvous without
crashing. -/
theorem C4_fanout_first_wins (fm : String → String → Bool) (client : Option String)
    (conns : List (String × CallState)) (r : Msg) (rest : List Msg) :
    (serverFanout fm client conns).2
      = (conns.filter fun pc => connSelected fm client pc.1).map
          (fun pc => (pc.1, pc.2.nextSerial))
    ∧ (serverFanout fm client conns).1
      = conns.map (fun pc =>
          if connSelected fm client pc.1 then (pc.1, callMethodState pc.2) else pc)
    ∧ waiterGet (r :: rest) = some r
    ∧ serverReturn (r :: rest) = some (fanReturnOf r)
    ∧ (∀ rest2, waiterGet (r :: rest2) = some r)
    ∧ (∀ e, alookup r "error" = some e →
        fanReturnOf r = FanReturn.raised (jget e "code") (jget e "data"))
    ∧ (alookup r "error" = none →
        fanReturnOf r = FanReturn.value (alookup r "result")) := by
  refine ⟨?_, ?_, rfl, rfl, fun _ => rfl, ?_, ?_⟩
  · rw [serverFanout_spec]
  · rw [serverFanout_spec]
  · intro e he
    simp [fanReturnOf, he]
  · intro he
    simp [fanReturnOf, he]

/-- Witness for C4: two selected connections, a winning `result:"b"` reply
followed by a late reply that is discarded. -/
theorem C4_fanout_first_wins_witness :
    (serverFanout (fun _ _ => true) none
        [("client-1", initState), ("client-2", initState)]).2
      = [("client-1", 1), ("client-2", 1)]
    ∧ serverReturn
        ([("jsonrpc", JVal.str "2.0"), ("id", JVal.num 1), ("result", JVal.str "b")]
          :: [[("jsonrpc", JVal.str "2.0"), ("id", JVal.num 1),
               ("result", JVal.str "a")]])
      = some (FanReturn.value (some (JVal.str "b"))) := by
  have h := C4_fanout_first_wins (fun _ _ => true) none
    [("client-1", initState), ("client-2", initState)]
    [("jsonrpc", JVal.str "2.0"), ("id", JVal.num 1), ("result", JVal.str "b")]
    [[("jsonrpc", JVal.str "2.0"), ("id", JVal.num 1), ("result", JVal.str "a")]]
  constructor
  · rw [h.1]
    rfl
  · rw [h.2.2.2.1, h.2.2.2.2.2.2 rfl]
    rfl

end BluepassMB


